import Mathlib

/-!
Verification development for a SQLite-shell driver: a protocol layer that
formats SQL literals, binds positional/named parameters into SQL templates
with a quote-aware single-pass scanner, frames the child process's
line-oriented JSON output into row fragments, and enforces single-flight
execution on a session wrapping one child process.

The definitions below are a shallow embedding of the TypeScript source
(`shell.ts`).  JavaScript strings are embedded as `String`/`List Char`,
JavaScript numbers by the integral fragment `Int` (the driver's number
formatting is `toString`), `Uint8Array` as `List (Fin 256)`, exceptions as
`Except`, and the async-generator session as an explicit step function over
a small state machine.
-/

namespace SqliteShell

/-- The single-quote character, written via its code point. -/
def squote : Char := Char.ofNat 39

/-- `Parameter` from the source: `string | number | boolean | null | Uint8Array`.
JavaScript numbers are IEEE doubles; the embedding covers the integral
fragment, whose `toString` is decimal notation. -/
inductive Parameter where
  | null
  | boolean (b : Bool)
  | number (n : Int)
  | text (s : String)
  | bytes (bs : List (Fin 256))
deriving DecidableEq

/-- One hexadecimal digit, lowercase (models the std `hex` encoding table). -/
def hexDigit (n : Nat) : Char :=
  if n < 10 then Char.ofNat (48 + n) else Char.ofNat (87 + n)

/-- `encodeToString` of the std hex module: each byte becomes two lowercase
hex digits, high nibble first. -/
def toHexChars (bs : List (Fin 256)) : List Char :=
  match bs with
  | [] => []
  | b :: rest => hexDigit (b.val / 16) :: hexDigit (b.val % 16) :: toHexChars rest

/-- `param.replace(/'/g, "''")` from the source: double every single quote,
leave every other character alone. -/
def escapeQuotes (cs : List Char) : List Char :=
  match cs with
  | [] => []
  | c :: rest =>
    if c = squote then c :: c :: escapeQuotes rest else c :: escapeQuotes rest

/-- `formatParam` from the source: string → quoted with quotes doubled;
number/boolean → `toString`; `Uint8Array` → `x'..hex..'`; null → `NULL`. -/
def formatParam (param : Parameter) : String :=
  match param with
  | .text s => String.mk (squote :: (escapeQuotes s.data ++ [squote]))
  | .number n => toString n
  | .boolean b => toString b
  | .bytes bs => String.mk ('x' :: squote :: (toHexChars bs ++ [squote]))
  | .null => "NULL"

/-- Binding errors of the source (`throw new Error(...)` in the binders). -/
inductive BindError where
  | missingPositional (i : Nat)
  | unconsumedParameters (template : String)
  | missingNamed (key : String)
deriving DecidableEq

/-- The scan of `bindPositional`: the regex `/['?]/g` matches each single
quote or question mark; `paramReplacer` toggles `inQuote` on a quote and,
outside quotes, replaces `?` by the formatted parameter at the cursor
(`idx`), failing when the cursor is past the end of the list.  Returns the
output characters together with the final cursor. -/
def bindPosChars (params : List Parameter) (cs : List Char) (inQuote : Bool)
    (idx : Nat) : Except BindError (List Char × Nat) :=
  match cs with
  | [] => .ok ([], idx)
  | c :: rest =>
    if c = squote then
      match bindPosChars params rest (!inQuote) idx with
      | .error e => .error e
      | .ok (out, fi) => .ok (c :: out, fi)
    else if c = '?' then
      if inQuote then
        match bindPosChars params rest inQuote idx with
        | .error e => .error e
        | .ok (out, fi) => .ok (c :: out, fi)
      else
        match params.get? idx with
        | none => .error (.missingPositional idx)
        | some v =>
          match bindPosChars params rest inQuote (idx + 1) with
          | .error e => .error e
          | .ok (out, fi) => .ok ((formatParam v).data ++ out, fi)
    else
      match bindPosChars params rest inQuote idx with
      | .error e => .error e
      | .ok (out, fi) => .ok (c :: out, fi)

/-- `bindPositional` from the source.  The source's post-check
`idx <= params.length - 1` is over JavaScript numbers, where it is exactly
`idx < params.length`. -/
def bindPositional (query : String) (params : List Parameter) :
    Except BindError String :=
  match bindPosChars params query.data false 0 with
  | .error e => .error e
  | .ok (out, idx) =>
    if idx < params.length then .error (.unconsumedParameters query)
    else .ok (String.mk out)

/-- Reference count of the bare `?` placeholders standing outside quoted
string literals, using the same quote-toggle discipline as the scanner. -/
def countPlaceholders (cs : List Char) (inQuote : Bool) : Nat :=
  match cs with
  | [] => 0
  | c :: rest =>
    if c = squote then countPlaceholders rest (!inQuote)
    else if c = '?' then
      if inQuote then countPlaceholders rest inQuote
      else 1 + countPlaceholders rest inQuote
    else countPlaceholders rest inQuote

/-- Reference substitution: replace the `k`-th outside-quote `?` (counting
from the cursor `idx`) by the formatted `idx + k`-th parameter, leaving all
other characters unchanged.  Total: out-of-range placeholders format a
default, which the success theorem's hypotheses exclude. -/
def substPositional (params : List Parameter) (cs : List Char) (inQuote : Bool)
    (idx : Nat) : List Char :=
  match cs with
  | [] => []
  | c :: rest =>
    if c = squote then c :: substPositional params rest (!inQuote) idx
    else if c = '?' then
      if inQuote then c :: substPositional params rest inQuote idx
      else (formatParam (params.getD idx .null)).data ++
        substPositional params rest inQuote (idx + 1)
    else c :: substPositional params rest inQuote idx

theorem qmark_ne_squote : ('?' : Char) ≠ squote := by decide

theorem bindPosChars_ok (params : List Parameter) (cs : List Char) :
    ∀ (inQuote : Bool) (idx : Nat),
      idx + countPlaceholders cs inQuote ≤ params.length →
      bindPosChars params cs inQuote idx =
        .ok (substPositional params cs inQuote idx,
             idx + countPlaceholders cs inQuote) := by
  induction cs with
  | nil =>
    intro inQuote idx h
    simp [bindPosChars, countPlaceholders, substPositional]
  | cons c rest ih =>
    intro inQuote idx h
    by_cases hc : c = squote
    · subst hc
      have h' : idx + countPlaceholders rest (!inQuote) ≤ params.length := by
        simpa [countPlaceholders] using h
      simp [bindPosChars, substPositional, countPlaceholders,
        ih (!inQuote) idx h']
    · by_cases hq : c = '?'
      · subst hq
        cases inQuote with
        | true =>
          have h' : idx + countPlaceholders rest true ≤ params.length := by
            simpa [countPlaceholders, squote] using h
          simp [bindPosChars, substPositional, countPlaceholders, squote,
            ih true idx h']
        | false =>
          have h' : idx + (1 + countPlaceholders rest false) ≤
              params.length := by
            simpa [countPlaceholders, squote] using h
          have hlt : idx < params.length := by omega
          have hgd : params.getD idx .null = params.get ⟨idx, hlt⟩ := by
            rw [List.getD_eq_getElem?_getD, List.getElem?_eq_getElem hlt]
            rfl
          have hget : params[idx]? = some (params.get ⟨idx, hlt⟩) := by
            rw [List.getElem?_eq_getElem hlt]
            rfl
          have hcnt : countPlaceholders ('?' :: rest) false =
              1 + countPlaceholders rest false := by
            simp [countPlaceholders, squote]
          simp [bindPosChars, substPositional, hcnt, squote,
            hget, hgd, ih false (idx + 1) (by omega)]
          omega
      · have h' : idx + countPlaceholders rest inQuote ≤ params.length := by
          simpa [countPlaceholders, hc, hq] using h
        simp [bindPosChars, substPositional, countPlaceholders, hc, hq,
          ih inQuote idx h']

theorem bindPosChars_missing (params : List Parameter) (cs : List Char) :
    ∀ (inQuote : Bool) (idx : Nat),
      idx ≤ params.length →
      params.length < idx + countPlaceholders cs inQuote →
      bindPosChars params cs inQuote idx =
        .error (.missingPositional params.length) := by
  induction cs with
  | nil =>
    intro inQuote idx hle hlt
    simp only [countPlaceholders] at hlt
    omega
  | cons c rest ih =>
    intro inQuote idx hle hlt
    by_cases hc : c = squote
    · subst hc
      have h' : params.length < idx + countPlaceholders rest (!inQuote) := by
        simpa [countPlaceholders] using hlt
      simp [bindPosChars, ih (!inQuote) idx hle h']
    · by_cases hq : c = '?'
      · subst hq
        cases inQuote with
        | true =>
          have h' : params.length < idx + countPlaceholders rest true := by
            simpa [countPlaceholders, squote] using hlt
          simp [bindPosChars, squote, ih true idx hle h']
        | false =>
          have h' : params.length <
              idx + (1 + countPlaceholders rest false) := by
            simpa [countPlaceholders, squote] using hlt
          by_cases hidx : idx < params.length
          · have hget : params[idx]? = some (params.get ⟨idx, hidx⟩) := by
              rw [List.getElem?_eq_getElem hidx]
              rfl
            simp [bindPosChars, squote, hget,
              ih false (idx + 1) (by omega) (by omega)]
          · have hidx2 : idx = params.length := by omega
            have hnone : params[idx]? = none :=
              List.getElem?_eq_none (by omega)
            simp [bindPosChars, squote, hnone, hidx2]
      · have h' : params.length < idx + countPlaceholders rest inQuote := by
          simpa [countPlaceholders, hc, hq] using hlt
        simp [bindPosChars, hc, hq, ih inQuote idx hle h']

/-- C3: with a template holding `N` bare `?` outside quoted literals,
binding exactly `N` values substitutes them left-to-right in placeholder
order and succeeds (a cursor equal to the list length counts as fully
consumed); fewer than `N` values fail with the missing-positional error at
the first unfilled zero-based index (which is the number of supplied
values); more than `N` values fail with the unconsumed-parameters error. -/
theorem bindPositional_count_spec (query : String) (params : List Parameter) :
    (params.length = countPlaceholders query.data false →
        bindPositional query params =
          .ok (String.mk (substPositional params query.data false 0))) ∧
    (params.length < countPlaceholders query.data false →
        bindPositional query params =
          .error (.missingPositional params.length)) ∧
    (countPlaceholders query.data false < params.length →
        bindPositional query params =
          .error (.unconsumedParameters query)) := by
  refine ⟨?_, ?_, ?_⟩
  · intro h
    unfold bindPositional
    rw [bindPosChars_ok params query.data false 0 (by omega)]
    simp only [Nat.zero_add]
    rw [if_neg (by omega)]
  · intro h
    unfold bindPositional
    rw [bindPosChars_missing params query.data false 0 (by omega) (by omega)]
  · intro h
    unfold bindPositional
    rw [bindPosChars_ok params query.data false 0 (by omega)]
    simp only [Nat.zero_add]
    rw [if_pos (by omega)]

theorem bindPositional_count_spec_witness :
    bindPositional "a = ?" [Parameter.number 5] =
      .ok (String.mk (substPositional [Parameter.number 5] "a = ?".data
        false 0)) ∧
    bindPositional "a = ?, b = ?" [Parameter.number 5] =
      .error (.missingPositional 1) ∧
    bindPositional "a = ?" [Parameter.number 5, Parameter.null] =
      .error (.unconsumedParameters "a = ?") :=
  ⟨(bindPositional_count_spec "a = ?" [Parameter.number 5]).1 (by decide),
   (bindPositional_count_spec "a = ?, b = ?" [Parameter.number 5]).2.1
     (by decide),
   (bindPositional_count_spec "a = ?" [Parameter.number 5, Parameter.null]).2.2
     (by decide)⟩

/-- JavaScript regex `\w`: ASCII letters, digits and underscore. -/
def isWordChar (c : Char) : Bool := c.isAlphanum || c == '_'

/-- The named-placeholder sigils of the regex `[@:$]`. -/
def isSigil (c : Char) : Bool := c == '@' || c == ':' || c == '$'

/-- Whether the scan position starts an identifier (`\w+` needs at least
one word character after the sigil). -/
def headIsWordChar (cs : List Char) : Bool :=
  match cs with
  | [] => false
  | d :: _ => isWordChar d

/-- The scan of `bindNamed`: the regex `/('|[@:$]\w+)/g` matches a single
quote or a sigil followed by a maximal nonempty run of word characters.
`paramReplacer` toggles `inQuote` on a quote, passes any match through
unchanged inside quotes, and outside quotes replaces a sigil match by the
formatted value of `params[key]` where `key` is the match minus its sigil,
failing when the key is absent. -/
def bindNamedChars (params : List (String × Parameter)) (cs : List Char)
    (inQuote : Bool) : Except BindError (List Char) :=
  match cs with
  | [] => .ok []
  | c :: rest =>
    if c = squote then
      match bindNamedChars params rest (!inQuote) with
      | .error e => .error e
      | .ok out => .ok (c :: out)
    else if isSigil c && headIsWordChar rest then
      if inQuote then
        match bindNamedChars params (rest.dropWhile isWordChar) inQuote with
        | .error e => .error e
        | .ok out => .ok (c :: (rest.takeWhile isWordChar ++ out))
      else
        match params.lookup (String.mk (rest.takeWhile isWordChar)) with
        | none => .error (.missingNamed (String.mk (rest.takeWhile isWordChar)))
        | some v =>
          match bindNamedChars params (rest.dropWhile isWordChar) inQuote with
          | .error e => .error e
          | .ok out => .ok ((formatParam v).data ++ out)
    else
      match bindNamedChars params rest inQuote with
      | .error e => .error e
      | .ok out => .ok (c :: out)
termination_by cs.length
decreasing_by
  all_goals simp_wf
  all_goals
    have := List.Sublist.length_le (List.dropWhile_sublist (l := rest)
      (p := isWordChar))
  all_goals omega

/-- `bindNamed` from the source. -/
def bindNamed (query : String) (params : List (String × Parameter)) :
    Except BindError String :=
  match bindNamedChars params query.data false with
  | .error e => .error e
  | .ok out => .ok (String.mk out)

/-- Reference list of the identifiers of the sigil-prefixed placeholders
standing outside quoted string literals, in template order, using the same
tokenizer discipline as the scanner. -/
def namedKeys (cs : List Char) (inQuote : Bool) : List String :=
  match cs with
  | [] => []
  | c :: rest =>
    if c = squote then namedKeys rest (!inQuote)
    else if isSigil c && headIsWordChar rest then
      if inQuote then namedKeys (rest.dropWhile isWordChar) inQuote
      else String.mk (rest.takeWhile isWordChar) ::
        namedKeys (rest.dropWhile isWordChar) inQuote
    else namedKeys rest inQuote
termination_by cs.length
decreasing_by
  all_goals simp_wf
  all_goals
    have := List.Sublist.length_le (List.dropWhile_sublist (l := rest)
      (p := isWordChar))
  all_goals omega

/-- `QueryParameters` from the source: an array (positional mode) or an
object (named mode, embedded as an association list with unique keys). -/
inductive QueryParameters where
  | positional (l : List Parameter)
  | named (m : List (String × Parameter))
deriving DecidableEq

/-- `bindParams` from the source: dispatch on `Array.isArray(params)`. -/
def bindParams (query : String) (params : QueryParameters) :
    Except BindError String :=
  match params with
  | .positional l => bindPositional query l
  | .named m => bindNamed query m

theorem bindNamedChars_characterization (params : List (String × Parameter)) :
    ∀ (n : Nat) (cs : List Char), cs.length ≤ n → ∀ (inQuote : Bool),
      ((namedKeys cs inQuote).find?
          (fun s => (params.lookup s).isNone) = none →
        ∃ out, bindNamedChars params cs inQuote = .ok out) ∧
      (∀ k, (namedKeys cs inQuote).find?
          (fun s => (params.lookup s).isNone) = some k →
        bindNamedChars params cs inQuote = .error (.missingNamed k)) := by
  intro n
  induction n with
  | zero =>
    intro cs hlen inQuote
    have hnil : cs = [] := List.eq_nil_of_length_eq_zero (by omega)
    subst hnil
    constructor
    · intro _
      exact ⟨[], by simp [bindNamedChars]⟩
    · intro k hk
      simp [namedKeys] at hk
  | succ n ih =>
    intro cs hlen inQuote
    match cs with
    | [] =>
      constructor
      · intro _
        exact ⟨[], by simp [bindNamedChars]⟩
      · intro k hk
        simp [namedKeys] at hk
    | c :: rest =>
      have hrest : rest.length ≤ n := by
        simp only [List.length_cons] at hlen
        omega
      by_cases hc : c = squote
      · subst hc
        obtain ⟨ihok, iherr⟩ := ih rest hrest (!inQuote)
        constructor
        · intro hnone
          obtain ⟨out, hout⟩ := ihok (by simpa [namedKeys] using hnone)
          exact ⟨squote :: out, by simp [bindNamedChars, hout]⟩
        · intro k hk
          simp [bindNamedChars, iherr k (by simpa [namedKeys] using hk)]
      · by_cases hs : (isSigil c && headIsWordChar rest) = true
        · have hrest2 : (rest.dropWhile isWordChar).length ≤ n := by
            have := List.Sublist.length_le
              (List.dropWhile_sublist (l := rest) (p := isWordChar))
            omega
          obtain ⟨ihok, iherr⟩ := ih (rest.dropWhile isWordChar) hrest2 inQuote
          cases inQuote with
          | true =>
            constructor
            · intro hnone
              obtain ⟨out, hout⟩ :=
                ihok (by simpa [namedKeys, hc, hs] using hnone)
              exact ⟨c :: (rest.takeWhile isWordChar ++ out),
                by simp [bindNamedChars, hc, hs, hout]⟩
            · intro k hk
              simp [bindNamedChars, hc, hs,
                iherr k (by simpa [namedKeys, hc, hs] using hk)]
          | false =>
            cases hlook : params.lookup (String.mk (rest.takeWhile isWordChar))
              with
            | none =>
              constructor
              · intro hnone
                exfalso
                simp [namedKeys, hc, hs, List.find?_cons, hlook] at hnone
              · intro k hk
                have hkey : k = String.mk (rest.takeWhile isWordChar) := by
                  simp [namedKeys, hc, hs, List.find?_cons, hlook] at hk
                  exact hk.symm
                subst hkey
                simp [bindNamedChars, hc, hs, hlook]
            | some v =>
              constructor
              · intro hnone
                obtain ⟨out, hout⟩ := ihok (by
                  simpa [namedKeys, hc, hs, List.find?_cons, hlook] using hnone)
                exact ⟨(formatParam v).data ++ out,
                  by simp [bindNamedChars, hc, hs, hlook, hout]⟩
              · intro k hk
                simp [bindNamedChars, hc, hs, hlook, iherr k (by
                  simpa [namedKeys, hc, hs, List.find?_cons, hlook] using hk)]
        · obtain ⟨ihok, iherr⟩ := ih rest hrest inQuote
          constructor
          · intro hnone
            obtain ⟨out, hout⟩ :=
              ihok (by simpa [namedKeys, hc, hs] using hnone)
            exact ⟨c :: out, by simp [bindNamedChars, hc, hs, hout]⟩
          · intro k hk
            simp [bindNamedChars, hc, hs,
              iherr k (by simpa [namedKeys, hc, hs] using hk)]

/-- C6: in named mode, binding fails with the missing-named error carrying
the identifier of the first sigil-prefixed placeholder outside quotes whose
key is absent from the mapping; when every outside-quote placeholder key is
present the bind succeeds, whatever extra entries the mapping holds — there
is no unused-parameter check in named mode. -/
theorem bindNamed_spec (query : String) (params : List (String × Parameter)) :
    ((namedKeys query.data false).find?
        (fun s => (params.lookup s).isNone) = none →
      ∃ out, bindNamed query params = .ok out) ∧
    (∀ k, (namedKeys query.data false).find?
        (fun s => (params.lookup s).isNone) = some k →
      bindNamed query params = .error (.missingNamed k)) := by
  obtain ⟨hok, herr⟩ := bindNamedChars_characterization params
    query.data.length query.data le_rfl false
  constructor
  · intro h
    obtain ⟨out, hout⟩ := hok h
    exact ⟨String.mk out, by simp [bindNamed, hout]⟩
  · intro k hk
    simp [bindNamed, herr k hk]

theorem bindNamed_spec_witness :
    (∃ out, bindNamed "c1 = :c1" [("c1", Parameter.number 1),
      ("unused", Parameter.null)] = .ok out) ∧
    bindNamed "a = @x AND b = @y" [("y", Parameter.null)] =
      .error (.missingNamed "x") :=
  ⟨(bindNamed_spec "c1 = :c1" [("c1", Parameter.number 1),
      ("unused", Parameter.null)]).1 (by simp +decide [namedKeys, List.lookup]),
   (bindNamed_spec "a = @x AND b = @y" [("y", Parameter.null)]).2 "x"
     (by simp +decide [namedKeys, List.lookup])⟩

theorem squote_not_word : isWordChar squote = false := by decide

theorem bindPosChars_inQuote_passthrough (params : List Parameter)
    (mid : List Char) :
    ∀ (rest : List Char) (idx : Nat), squote ∉ mid →
      bindPosChars params (mid ++ rest) true idx =
        (bindPosChars params rest true idx).map
          (fun p => (mid ++ p.1, p.2)) := by
  induction mid with
  | nil =>
    intro rest idx _
    cases hres : bindPosChars params rest true idx with
    | error e => simp [hres, Except.map]
    | ok p => simp [hres, Except.map]
  | cons c mid' ih =>
    intro rest idx hmem
    have hc : ¬ c = squote := fun h => hmem (by simp [h])
    have hmem' : squote ∉ mid' := fun h => hmem (List.mem_cons_of_mem _ h)
    by_cases hq : c = '?'
    · subst hq
      cases hres : bindPosChars params rest true idx with
      | error e =>
        simp [bindPosChars, squote, ih rest idx hmem', hres, Except.map]
      | ok p =>
        simp [bindPosChars, squote, ih rest idx hmem', hres, Except.map]
    · cases hres : bindPosChars params rest true idx with
      | error e =>
        simp [bindPosChars, hc, hq, ih rest idx hmem', hres, Except.map]
      | ok p =>
        simp [bindPosChars, hc, hq, ih rest idx hmem', hres, Except.map]

theorem bindNamedChars_inQuote_passthrough
    (params : List (String × Parameter)) :
    ∀ (n : Nat) (mid : List Char), mid.length ≤ n → ∀ (rest : List Char),
      squote ∉ mid →
      bindNamedChars params (mid ++ squote :: rest) true =
        (bindNamedChars params rest false).map
          (fun out => mid ++ squote :: out) := by
  intro n
  induction n with
  | zero =>
    intro mid hlen rest _
    have hnil : mid = [] := List.eq_nil_of_length_eq_zero (by omega)
    subst hnil
    cases hres : bindNamedChars params rest false with
    | error e => simp [bindNamedChars, hres, Except.map]
    | ok out => simp [bindNamedChars, hres, Except.map]
  | succ n ih =>
    intro mid hlen rest hmem
    match mid with
    | [] =>
      cases hres : bindNamedChars params rest false with
      | error e => simp [bindNamedChars, hres, Except.map]
      | ok out => simp [bindNamedChars, hres, Except.map]
    | c :: mid' =>
      have hc : ¬ c = squote := fun h => hmem (by simp [h])
      have hmem' : squote ∉ mid' := fun h => hmem (List.mem_cons_of_mem _ h)
      have hlen' : mid'.length ≤ n := by
        simp only [List.length_cons] at hlen
        omega
      by_cases hs : (isSigil c && headIsWordChar (mid' ++ squote :: rest)) =
          true
      · by_cases hall : ∀ a ∈ mid', isWordChar a = true
        · have htake : (mid' ++ squote :: rest).takeWhile isWordChar =
              mid' := by
            rw [List.takeWhile_append_of_pos hall]
            simp [List.takeWhile_cons, squote_not_word]
          have hdrop : (mid' ++ squote :: rest).dropWhile isWordChar =
              squote :: rest := by
            rw [List.dropWhile_append_of_pos hall]
            simp [List.dropWhile_cons, squote_not_word]
          have hrec := ih [] (by simp) rest (by simp)
          rw [List.nil_append] at hrec
          cases hres : bindNamedChars params rest false with
          | error e =>
            simp [bindNamedChars, hc, hs, htake, hdrop, hrec, hres,
              Except.map]
          | ok out =>
            simp [bindNamedChars, hc, hs, htake, hdrop, hrec, hres,
              Except.map]
        · have hnndrop : ¬ mid'.dropWhile isWordChar = [] := by
            rw [List.dropWhile_eq_nil_iff]
            exact fun h => hall (fun a ha => h a ha)
          have htlen : ¬ (mid'.takeWhile isWordChar).length =
              mid'.length := by
            intro h
            have heq : mid'.takeWhile isWordChar = mid' :=
              ((List.takeWhile_sublist _).length_eq).mp h
            exact hall ((List.takeWhile_eq_self_iff).mp heq)
          have htake : (mid' ++ squote :: rest).takeWhile isWordChar =
              mid'.takeWhile isWordChar := by
            rw [List.takeWhile_append, if_neg htlen]
          have hdrop : (mid' ++ squote :: rest).dropWhile isWordChar =
              mid'.dropWhile isWordChar ++ squote :: rest := by
            rw [List.dropWhile_append,
              if_neg (by simpa [List.isEmpty_iff] using hnndrop)]
          have hmem'' : squote ∉ mid'.dropWhile isWordChar :=
            fun h => hmem' ((List.dropWhile_sublist _).subset h)
          have hlen'' : (mid'.dropWhile isWordChar).length ≤ n :=
            le_trans (List.Sublist.length_le (List.dropWhile_sublist _)) hlen'
          have hrec := ih (mid'.dropWhile isWordChar) hlen'' rest hmem''
          cases hres : bindNamedChars params rest false with
          | error e =>
            simp [bindNamedChars, hc, hs, htake, hdrop, hrec, hres,
              Except.map]
          | ok out =>
            simp [bindNamedChars, hc, hs, htake, hdrop, hrec, hres,
              Except.map, ← List.append_assoc,
              List.takeWhile_append_dropWhile]
      · have hrec := ih mid' hlen' rest hmem'
        cases hres : bindNamedChars params rest false with
        | error e =>
          simp [bindNamedChars, hc, hs, hrec, hres, Except.map]
        | ok out =>
          simp [bindNamedChars, hc, hs, hrec, hres, Except.map]

/-- C4: a placeholder-shaped token standing between two quote characters is
passed through unchanged by bind and consumes no positional parameter and
requires no named entry: inside a string literal the positional scanner
copies any quote-free segment verbatim with an unchanged cursor, the named
scanner copies any quote-free segment and the closing quote verbatim with
no key lookup, and in particular binding `c = '?'` against an empty list
returns `c = '?'` unchanged without error. -/
theorem quoted_placeholder_passthrough :
    (∀ (mid rest : List Char) (params : List Parameter) (idx : Nat),
        squote ∉ mid →
        bindPosChars params (mid ++ rest) true idx =
          (bindPosChars params rest true idx).map
            (fun p => (mid ++ p.1, p.2))) ∧
    (∀ (mid rest : List Char) (params : List (String × Parameter)),
        squote ∉ mid →
        bindNamedChars params (mid ++ squote :: rest) true =
          (bindNamedChars params rest false).map
            (fun out => mid ++ squote :: out)) ∧
    bindPositional "c = '?'" [] = .ok "c = '?'" := by
  refine ⟨?_, ?_, rfl⟩
  · intro mid rest params idx h
    exact bindPosChars_inQuote_passthrough params mid rest idx h
  · intro mid rest params h
    exact bindNamedChars_inQuote_passthrough params mid.length mid le_rfl
      rest h

theorem quoted_placeholder_passthrough_witness :
    bindPosChars [] (['?'] ++ []) true 0 =
      (bindPosChars [] [] true 0).map (fun p => (['?'] ++ p.1, p.2)) ∧
    bindNamedChars [] ([':', 'c'] ++ squote :: []) true =
      (bindNamedChars [] [] false).map
        (fun out => [':', 'c'] ++ squote :: out) :=
  ⟨quoted_placeholder_passthrough.1 ['?'] [] [] 0 (by decide),
   quoted_placeholder_passthrough.2.1 [':', 'c'] [] [] (by decide)⟩

/-- C10: bind makes a single left-to-right pass over the original template
only: substituting a parameter splices the formatted text verbatim into the
output and continues scanning the template's remainder in the pre-existing
scanner state, so the inserted text is never rescanned — a quote character
inside a substituted text value cannot toggle the inside-literal flag, and
placeholder-shaped text inside a substituted value is never itself
substituted. -/
theorem bind_single_pass :
    (∀ (rest : List Char) (params : List Parameter) (idx : Nat)
        (v : Parameter), params.get? idx = some v →
        bindPosChars params ('?' :: rest) false idx =
          (bindPosChars params rest false (idx + 1)).map
            (fun p => ((formatParam v).data ++ p.1, p.2))) ∧
    (∀ (c : Char) (rest : List Char) (params : List (String × Parameter))
        (v : Parameter),
        isSigil c = true → headIsWordChar rest = true →
        params.lookup (String.mk (rest.takeWhile isWordChar)) = some v →
        bindNamedChars params (c :: rest) false =
          (bindNamedChars params (rest.dropWhile isWordChar) false).map
            (fun out => (formatParam v).data ++ out)) := by
  constructor
  · intro rest params idx v hv
    have hv' : params[idx]? = some v := by
      rw [← List.get?_eq_getElem?]
      exact hv
    cases hres : bindPosChars params rest false (idx + 1) with
    | error e => simp [bindPosChars, squote, hv', hres, Except.map]
    | ok p => simp [bindPosChars, squote, hv', hres, Except.map]
  · intro c rest params v hsig hw hv
    have hc : ¬ c = squote := by
      intro h
      rw [h] at hsig
      exact absurd hsig (by decide)
    cases hres : bindNamedChars params (rest.dropWhile isWordChar) false with
    | error e =>
      simp [bindNamedChars, hc, hsig, hw, hv, hres, Except.map]
    | ok out =>
      simp [bindNamedChars, hc, hsig, hw, hv, hres, Except.map]

theorem bind_single_pass_witness :
    bindPosChars [Parameter.null] ('?' :: []) false 0 =
      (bindPosChars [Parameter.null] [] false 1).map
        (fun p => ((formatParam Parameter.null).data ++ p.1, p.2)) ∧
    bindNamedChars [("x", Parameter.null)] (':' :: ['x']) false =
      (bindNamedChars [("x", Parameter.null)]
          (['x'].dropWhile isWordChar) false).map
        (fun out => (formatParam Parameter.null).data ++ out) :=
  ⟨bind_single_pass.1 [] [Parameter.null] 0 Parameter.null (by decide),
   bind_single_pass.2 ':' ['x'] [("x", Parameter.null)] Parameter.null
     (by decide) (by decide) (by decide)⟩

theorem escapeQuotes_eq_flatMap (cs : List Char) :
    escapeQuotes cs =
      cs.flatMap (fun c => if c = squote then [squote, squote] else [c]) := by
  induction cs with
  | nil => simp [escapeQuotes]
  | cons c rest ih =>
    by_cases hc : c = squote
    · subst hc
      simp [escapeQuotes, ih]
    · simp [escapeQuotes, hc, ih]

theorem toHexChars_eq_flatMap (bs : List (Fin 256)) :
    toHexChars bs =
      bs.flatMap (fun b => [hexDigit (b.val / 16), hexDigit (b.val % 16)]) := by
  induction bs with
  | nil => simp [toHexChars]
  | cons b rest ih => simp [toHexChars, ih]

/-- C7: `format` is a total function with: Null mapped to the bare text
`NULL`; booleans mapped to the bare words true/false (not quoted); numbers
mapped to their canonical decimal text; text mapped to the value wrapped in
single quotes with every embedded single quote doubled and no other
character altered; byte sequences mapped to `x'`, then the two-digit
lowercase hexadecimal encoding of each byte in order, then a closing quote
(the digit table being `0123456789abcdef`). -/
theorem formatParam_spec :
    formatParam .null = "NULL" ∧
    (∀ b : Bool, formatParam (.boolean b) = if b then "true" else "false") ∧
    (∀ n : Int, formatParam (.number n) = toString n) ∧
    (∀ s : String, (formatParam (.text s)).data =
        squote :: (s.data.flatMap fun c =>
          if c = squote then [squote, squote] else [c]) ++ [squote]) ∧
    (∀ bs : List (Fin 256), (formatParam (.bytes bs)).data =
        'x' :: squote :: ((bs.flatMap fun b =>
          [hexDigit (b.val / 16), hexDigit (b.val % 16)]) ++ [squote])) ∧
    (∀ n : Fin 16, hexDigit n.val = "0123456789abcdef".data.getD n.val ' ') :=
  by
  refine ⟨rfl, ?_, fun _ => rfl, ?_, ?_, by decide⟩
  · intro b
    cases b <;> rfl
  · intro s
    simp [formatParam, escapeQuotes_eq_flatMap]
  · intro bs
    simp [formatParam, toHexChars_eq_flatMap]

/-- JavaScript `line.slice(start, -1)`: the characters from index `start`
up to but excluding the last one. -/
def jsSliceDropLast (s : String) (start : Nat) : String :=
  String.mk ((s.data.drop start).dropLast)

/-- The read loop of `queryRaw` (the Stream Framer): consume lines until
one equal to the sentinel `*`; the first framed line additionally loses its
leading character (the array's opening bracket), and every framed line
loses its trailing character (a comma or the closing bracket). -/
def frameLines (lines : List String) (i : Nat) : List String :=
  match lines with
  | [] => []
  | line :: rest =>
    if line = "*" then []
    else jsSliceDropLast line (if i = 0 then 1 else 0) :: frameLines rest (i + 1)

/-- Mutable state of a `Shell`: the `executing` single-flight flag. -/
structure ShellState where
  executing : Bool
deriving DecidableEq

/-- The child-process transport: the lines still unread on its stdout and
the record of the texts written to its stdin. -/
structure ProcState where
  stdoutLines : List String
  stdinWrites : List String
deriving DecidableEq

/-- Suspension state of one `queryRaw` async-generator instance: created
but not yet iterated (a JavaScript async generator runs none of its body
until the first `next()`); suspended at a `yield` inside the `try` block
after emitting some fragments; or done. -/
inductive GenState where
  | unstarted (text : String) (params : Option QueryParameters)
  | streaming (yielded : Nat)
  | done
deriving DecidableEq

/-- Errors a `queryRaw` step can throw. -/
inductive QueryError where
  | alreadyExecuting
  | binding (e : BindError)
deriving DecidableEq

/-- Observable outcome of driving the generator one step. -/
inductive StepOut where
  | yielded (fragment : String)
  | finished
  | threw (e : QueryError)
deriving DecidableEq

/-- After a successful bind, `queryRaw` writes the statement followed by
the sentinel-print command and enters the read loop at row index 0. -/
def startRead (proc : ProcState) (t : String) :
    StepOut × ShellState × ProcState × GenState :=
  let writes := proc.stdinWrites ++ [t ++ ";\n.print *\n"]
  match proc.stdoutLines with
  | [] => (.finished, ⟨false⟩, ⟨[], writes⟩, .done)
  | line :: rest =>
    if line = "*" then (.finished, ⟨false⟩, ⟨rest, writes⟩, .done)
    else (.yielded (jsSliceDropLast line 1), ⟨true⟩, ⟨rest, writes⟩,
      .streaming 1)

/-- One `next()` on a `queryRaw` generator.  Mirrors the body: the
single-flight check, `executing = true`, parameter binding (which the
source performs after setting the flag and before entering the
`try`/`finally`), the stdin write, and the framing read loop whose
`finally` clears `executing` on every exit from the loop. -/
def genNext (sh : ShellState) (proc : ProcState) (g : GenState) :
    StepOut × ShellState × ProcState × GenState :=
  match g with
  | .done => (.finished, sh, proc, .done)
  | .streaming i =>
    match proc.stdoutLines with
    | [] => (.finished, ⟨false⟩, proc, .done)
    | line :: rest =>
      if line = "*" then
        (.finished, ⟨false⟩, ⟨rest, proc.stdinWrites⟩, .done)
      else
        (.yielded (jsSliceDropLast line (if i = 0 then 1 else 0)), sh,
          ⟨rest, proc.stdinWrites⟩, .streaming (i + 1))
  | .unstarted text params =>
    if sh.executing then (.threw .alreadyExecuting, sh, proc, .done)
    else
      match params with
      | none => startRead proc text
      | some ps =>
        match bindParams text ps with
        | .error e => (.threw (.binding e), ⟨true⟩, proc, .done)
        | .ok t => startRead proc t

/-- `generator.return()` — the caller abandoning iteration.  A generator
never iterated has not run its body, so no `finally` executes; a generator
suspended inside the `try` runs the `finally`, clearing `executing`. -/
def genReturn (sh : ShellState) (g : GenState) : ShellState × GenState :=
  match g with
  | .unstarted _ _ => (sh, .done)
  | .streaming _ => (⟨false⟩, .done)
  | .done => (sh, .done)

/-- JavaScript `String.prototype.trim`, restricted to the ASCII whitespace
a shell line can carry. -/
def isJsSpace (c : Char) : Bool :=
  c == ' ' || c == '\t' || c == '\n' || c == '\r' || c == '\x0b' || c == '\x0c'

/-- `line.trim()` from the source's startup check. -/
def jsTrim (s : String) : String :=
  String.mk (((s.data.dropWhile isJsSpace).reverse.dropWhile
    isJsSpace).reverse)

/-- Outcome of `Shell.create`. -/
inductive CreateResult where
  | startupFailed
  | idleSession
deriving DecidableEq

/-- Trace of `Shell.create` on a given stdout stream: the outcome, how
many lines it consumed, and whether it tore the process down (closed both
pipes, awaited exit, released the handle). -/
structure CreateTrace where
  result : CreateResult
  linesConsumed : Nat
  tornDown : Bool
deriving DecidableEq

/-- `Shell.create` from the source: read at most one line and break;
`started` is whether the line's trimmed content equals the sentinel `*`;
when not started, close both pipes, await exit and release the handle
before throwing the startup failure. -/
def createRun (stdoutLines : List String) : CreateTrace :=
  match stdoutLines with
  | [] => ⟨.startupFailed, 0, true⟩
  | line :: _ =>
    if jsTrim line = "*" then ⟨.idleSession, 1, false⟩
    else ⟨.startupFailed, 1, true⟩

/-- The teardown effects of `Shell.close`, in program order. -/
inductive CloseEvent where
  | closeStdin
  | closeStdout
  | awaitStatus
  | releaseHandle
deriving DecidableEq

/-- `Shell.close` from the source: close stdin, close stdout, await the
exit status, release the handle, and then throw exactly when the exit code
is non-zero (JavaScript truthiness of `status.code`).  The first component
is the effect trace, the second the `AbnormalExit` payload if thrown. -/
def closeRun (code : Int) : List CloseEvent × Option Int :=
  ([.closeStdin, .closeStdout, .awaitStatus, .releaseHandle],
   if code = 0 then none else some code)

theorem frameLines_tail (rows : List String) :
    ∀ (tail : List String) (i : Nat), "*" ∉ rows → i ≠ 0 →
      frameLines (rows ++ "*" :: tail) i =
        rows.map (fun l => jsSliceDropLast l 0) := by
  induction rows with
  | nil =>
    intro tail i _ _
    simp [frameLines]
  | cons r rs ih =>
    intro tail i hmem hi
    have hr : ¬ r = "*" := fun h => hmem (by simp [h])
    have hmem' : "*" ∉ rs := fun h => hmem (List.mem_cons_of_mem _ h)
    simp [frameLines, hr, hi, ih tail (i + 1) hmem' (by omega)]

/-- C5: on a stream of `N` result lines followed by the sentinel `*`, the
framer yields exactly `N` fragments; the first fragment is the first line
with its first and last characters removed and every other fragment is its
line with only the last character removed; when the first line read is the
sentinel itself the produced sequence is empty. -/
theorem frameLines_spec :
    (∀ tail : List String, frameLines ("*" :: tail) 0 = []) ∧
    (∀ (rows tail : List String), "*" ∉ rows →
      (frameLines (rows ++ "*" :: tail) 0).length = rows.length) ∧
    (∀ (r : String) (rs tail : List String), "*" ∉ r :: rs →
      frameLines ((r :: rs) ++ "*" :: tail) 0 =
        jsSliceDropLast r 1 :: rs.map (fun l => jsSliceDropLast l 0)) := by
  have hcons : ∀ (r : String) (rs tail : List String), "*" ∉ r :: rs →
      frameLines ((r :: rs) ++ "*" :: tail) 0 =
        jsSliceDropLast r 1 :: rs.map (fun l => jsSliceDropLast l 0) := by
    intro r rs tail hmem
    have hr : ¬ r = "*" := fun h => hmem (by simp [h])
    have hmem' : "*" ∉ rs := fun h => hmem (List.mem_cons_of_mem _ h)
    simp [frameLines, hr, frameLines_tail rs tail 1 hmem' (by omega)]
  refine ⟨?_, ?_, hcons⟩
  · intro tail
    simp [frameLines]
  · intro rows tail hmem
    match rows with
    | [] => simp [frameLines]
    | r :: rs =>
      rw [hcons r rs tail hmem]
      simp

theorem frameLines_spec_witness :
    frameLines ("*" :: ["ignored"]) 0 = [] ∧
    (frameLines (["[r1,", "r2]"] ++ "*" :: []) 0).length = 2 ∧
    frameLines ((["[r1,", "r2]"]) ++ "*" :: []) 0 =
      jsSliceDropLast "[r1," 1 ::
        ["r2]"].map (fun l => jsSliceDropLast l 0) :=
  ⟨frameLines_spec.1 ["ignored"],
   frameLines_spec.2.1 ["[r1,", "r2]"] [] (by decide),
   frameLines_spec.2.2 "[r1," ["r2]"] [] (by decide)⟩

/-- C2: starting a second `queryRaw`/`execute` while a prior call is Busy
fails with AlreadyExecuting and leaves the session flag and the transport
(pending output and written input) unchanged; a read-loop step that
finishes the sequence always clears the flag, as does abandonment of a
suspended sequence, so after full exhaustion or abandonment a subsequent
call is not rejected with AlreadyExecuting. -/
theorem queryRaw_single_flight :
    (∀ (sh : ShellState) (proc : ProcState) (t : String)
        (p : Option QueryParameters), sh.executing = true →
        genNext sh proc (.unstarted t p) =
          (.threw .alreadyExecuting, sh, proc, .done)) ∧
    (∀ (sh sh' : ShellState) (proc proc' : ProcState) (i : Nat)
        (g : GenState) (out : StepOut),
        genNext sh proc (.streaming i) = (out, sh', proc', g) →
        out = .finished → sh'.executing = false) ∧
    (∀ (sh : ShellState) (i : Nat),
        genReturn sh (.streaming i) = (⟨false⟩, .done)) ∧
    (∀ (sh : ShellState) (proc : ProcState) (t : String),
        sh.executing = false → ∀ e : QueryError,
        (genNext sh proc (.unstarted t none)).1 ≠ .threw e) := by
  refine ⟨?_, ?_, ?_, ?_⟩
  · intro sh proc t p h
    simp [genNext, h]
  · intro sh sh' proc proc' i g out hstep hout
    subst hout
    cases hpo : proc.stdoutLines with
    | nil =>
      simp [genNext, hpo] at hstep
      simp [← hstep.1]
    | cons line rest =>
      by_cases hline : line = "*"
      · simp [genNext, hpo, hline] at hstep
        simp [← hstep.1]
      · simp [genNext, hpo, hline] at hstep
  · intro sh i
    simp [genReturn]
  · intro sh proc t h e
    cases hpo : proc.stdoutLines with
    | nil => simp [genNext, h, startRead, hpo]
    | cons line rest =>
      by_cases hline : line = "*"
      · simp [genNext, h, startRead, hpo, hline]
      · simp [genNext, h, startRead, hpo, hline]

theorem queryRaw_single_flight_witness :
    genNext ⟨true⟩ ⟨["*"], []⟩ (.unstarted "SELECT 1" none) =
      (.threw .alreadyExecuting, ⟨true⟩, ⟨["*"], []⟩, .done) ∧
    genReturn ⟨true⟩ (.streaming 1) = (⟨false⟩, .done) ∧
    (genNext ⟨false⟩ ⟨["*"], []⟩ (.unstarted "SELECT 1" none)).1 ≠
      .threw .alreadyExecuting :=
  ⟨queryRaw_single_flight.1 ⟨true⟩ ⟨["*"], []⟩ "SELECT 1" none rfl,
   queryRaw_single_flight.2.2.1 ⟨true⟩ 1,
   queryRaw_single_flight.2.2.2 ⟨false⟩ ⟨["*"], []⟩ "SELECT 1" rfl
     .alreadyExecuting⟩

/-- C1 (the code's actual behavior at the failing input): a binding
failure in `queryRaw` propagates the binding error to the caller but
leaves the session Busy — `executing` stays true because the source binds
after setting the flag and outside the `try`/`finally` — so a subsequent
well-formed call on the same session throws AlreadyExecuting rather than
succeeding. -/
theorem queryRaw_bind_error_leaves_busy :
    genNext ⟨false⟩ ⟨["*"], []⟩ (.unstarted "?" (some (.positional []))) =
      (.threw (.binding (.missingPositional 0)), ⟨true⟩, ⟨["*"], []⟩,
        .done) ∧
    (genNext ⟨true⟩ ⟨["*"], []⟩ (.unstarted "SELECT 1" none)).1 =
      .threw .alreadyExecuting := by
  exact ⟨rfl, rfl⟩

/-- C8 counterexample: the line `" *"` is not the sentinel line `*`, yet
create succeeds with an Idle session and no teardown, because the source
compares the line's trimmed content with the sentinel. -/
theorem create_untrimmed_line_counterexample :
    (" *" : String) ≠ "*" ∧
    createRun [" *"] = ⟨.idleSession, 1, false⟩ := by
  exact ⟨by decide, rfl⟩

/-- C8 (amended): create reads exactly one line; if that line's
whitespace-trimmed content is not `*`, it tears the process down (closes
both pipes, awaits exit, releases the handle) and fails with
StartupFailed; if the trimmed content is `*`, it returns an Idle session
without consuming further output. -/
theorem create_spec (line : String) (rest : List String) :
    (jsTrim line ≠ "*" →
      createRun (line :: rest) = ⟨.startupFailed, 1, true⟩) ∧
    (jsTrim line = "*" →
      createRun (line :: rest) = ⟨.idleSession, 1, false⟩) := by
  constructor
  · intro h
    simp [createRun, h]
  · intro h
    simp [createRun, h]

theorem create_spec_witness :
    createRun ["bad" ] = ⟨.startupFailed, 1, true⟩ ∧
    createRun ["*", "extra"] = ⟨.idleSession, 1, false⟩ :=
  ⟨(create_spec "bad" []).1 (by decide),
   (create_spec "*" ["extra"]).2 (by decide)⟩

/-- C9: close closes the input pipe, closes the output pipe, awaits the
exit code and releases the handle, in that order, for every exit code; it
raises AbnormalExit carrying the exit code if and only if the code is
non-zero, and the handle has been released (the trace is complete) before
any raise. -/
theorem close_spec (code : Int) :
    (closeRun code).1 =
      [.closeStdin, .closeStdout, .awaitStatus, .releaseHandle] ∧
    (closeRun code).2 = (if code = 0 then none else some code) ∧
    ((closeRun code).2 = some code ↔ code ≠ 0) := by
  refine ⟨rfl, rfl, ?_⟩
  by_cases hz : code = 0
  · simp [closeRun, hz]
  · simp [closeRun, hz]

end SqliteShell
